import Mathlib

/-!
Verification development for the front-end-packager bundling pipeline
(src/front-end-packager.js).

The source is a Node module built on bluebird promises.  We embed it
shallowly: every promise-returning function becomes a Lean function
returning `Pr α`, a pair of the settled value (`Except` for
fulfil/reject) and the ordered list of observable I/O actions the
computation performed.  External collaborators (the `request` fetcher,
the filesystem, `file-type`, `is-svg`, `is-url`, `is-invalid-path`, the
minifiers, `Buffer` decoding/encoding and the production-mode signal)
are fields of an `Env` record, exactly the black-box interface the
module uses.  Regex operations of the source are implemented directly
on character lists with the semantics of the concrete regexes that
appear in the source.
-/

set_option autoImplicit false

namespace FEP

variable {α β : Type}

/-- Bytes of a Node `Buffer`. -/
abbrev Bytes := List Nat

/-- Observable actions of one bundling computation: a network fetch, a
filesystem read, an invocation of the external minifier dispatch, and a
write to the output stream. -/
inductive Ev where
  | fetch (url : String)
  | readF (p : String)
  | minifyCall (ext : String)
  | write (s : String)
deriving DecidableEq

/-- A settled promise: its value (`Except.error` models rejection) and
the I/O actions it performed, in order. -/
structure Pr (α : Type) where
  res : Except String α
  trace : List Ev

instance {ε : Type} [DecidableEq ε] [DecidableEq α] : DecidableEq (Except ε α)
  | .ok a, .ok b => decidable_of_iff (a = b) (by simp)
  | .ok _, .error _ => isFalse (by intro h; cases h)
  | .error _, .ok _ => isFalse (by intro h; cases h)
  | .error e, .error f => decidable_of_iff (e = f) (by simp)

instance [DecidableEq α] : DecidableEq (Pr α) := fun a b =>
  decidable_of_iff (a.res = b.res ∧ a.trace = b.trace) (by cases a; cases b; simp)

/-- Fulfilled promise performing no I/O. -/
def Pr.pure (a : α) : Pr α := ⟨.ok a, []⟩

/-- Promise chaining (`.then`): on fulfilment run the continuation and
append its I/O; a rejection short-circuits. -/
def Pr.bind (x : Pr α) (f : α → Pr β) : Pr β :=
  match x.res with
  | .ok a => ⟨(f a).res, x.trace ++ (f a).trace⟩
  | .error e => ⟨.error e, x.trace⟩

/-- Promise `.catch`: a rejection is handed to the handler, keeping the
I/O already performed. -/
def Pr.catchWith (x : Pr α) (h : String → Pr α) : Pr α :=
  match x.res with
  | .ok a => ⟨.ok a, x.trace⟩
  | .error e => ⟨(h e).res, x.trace ++ (h e).trace⟩

/-- bluebird `Promise.each`: run the body over the list strictly
sequentially, stopping at the first rejection. -/
def eachM (f : α → Pr Unit) : List α → Pr Unit
  | [] => Pr.pure ()
  | a :: rest => (f a).bind fun _ => eachM f rest

/-- bluebird `Promise.reduce`: sequential monadic left fold. -/
def reduceM (f : β → α → Pr β) : β → List α → Pr β
  | b, [] => Pr.pure b
  | b, a :: rest => (f b a).bind fun b2 => reduceM f b2 rest

/-- The module's external collaborators, as used at its interface
boundary: URL/path classifiers, the byte fetcher (with the run's fixed
transport options already applied), the filesystem, the binary
signature classifier (`file-type`, returning a mime type or nothing),
the vector-markup detector (`is-svg`), `Buffer` utf-8 decoding and
base64 encoding, the production-mode signal (`NODE_ENV` matching
`production`), and the two external minifiers (with the run's fixed
`js`/`css` option objects already applied). -/
structure Env where
  isUrl : String → Bool
  isInvalidPath : String → Bool
  fetch : String → Except String Bytes
  readF : String → Except String Bytes
  fileType : Bytes → Option String
  isSvg : String → Bool
  toUtf8 : Bytes → String
  toBase64 : Bytes → String
  prod : Bool
  minifyJs : String → Except String String
  minifyCss : String → Except String String

/-- The recognized configuration options (`js`/`css` minifier options
and watcher options are folded into `Env`/the gate model). -/
structure Options where
  minify : Bool
  watch : Bool

/-! ## String utilities mirroring the JavaScript primitives used -/

/-- The apostrophe character. -/
def squote : Char := Char.ofNat 39

/-- Is `p` a prefix of `s` (JavaScript `^...` anchored regex test)? -/
def strPrefix (p s : String) : Bool := p.toList.isPrefixOf s.toList

/-- JavaScript whitespace class `\s` (ASCII part). -/
def jsWs (c : Char) : Bool :=
  c = ' ' || c = '\t' || c = '\n' || c = '\r' || c = '\x0b' || c = '\x0c'

/-- JavaScript `String.prototype.trim`. -/
def jsTrim (s : String) : String :=
  String.mk (((s.toList.dropWhile jsWs).reverse.dropWhile jsWs).reverse)

/-- JavaScript `p.split('.')`: split at every dot, keeping empty
segments (`''.split('.')` is `['']`). -/
def splitDotAux : List Char → List Char → List String
  | [], acc => [String.mk acc.reverse]
  | c :: rest, acc =>
      if c = '.' then String.mk acc.reverse :: splitDotAux rest []
      else splitDotAux rest (c :: acc)

/-- JavaScript `p.split('.')`. -/
def splitDot (p : String) : List String := splitDotAux p.toList []

/-- Last element of `p.split('.')`, i.e. `parts[parts.length - 1]`. -/
def lastSeg (p : String) : String :=
  (splitDot p).getLastD ""

/-- `parts[parts.length - 2]` of a JavaScript array: `undefined`
(`none`) when the array has fewer than two elements. -/
def penult (parts : List String) : Option String :=
  if 2 ≤ parts.length then parts.get? (parts.length - 2) else none

/-- The naming-convention check `parts[parts.length - 2] !== 'min'`
applied to a path (in JavaScript, `undefined !== 'min'` is true). -/
def notMinNamed (p : String) : Bool :=
  penult (splitDot p) != some "min"

/-- Node `path.dirname` for simple posix paths: everything before the
last `/`, `.` when there is none. -/
def dirname (p : String) : String :=
  let cs := p.toList
  match ((List.range cs.length).filter (fun i => cs.get? i = some '/')).getLast? with
  | none => "."
  | some 0 => "/"
  | some i => String.mk (cs.take i)

/-- Node `path.join` for the simple two-segment case (full
normalization of `..` segments is not exercised by the module). -/
def joinPath (a b : String) : String :=
  if a = "." then b else a ++ "/" ++ b

/-- First index of `s` at which `pat` occurs, `String.prototype.replace`
style search. -/
def firstIdxWhere (pat cs : List Char) : Option Nat :=
  ((List.range (cs.length + 1)).filter (fun i => pat.isPrefixOf (cs.drop i))).head?

/-- JavaScript `code.replace(pat, rep)` with a plain-string pattern:
replace the first occurrence only, identity when absent. -/
def replaceFirst (s pat rep : String) : String :=
  match firstIdxWhere pat.toList s.toList with
  | none => s
  | some i => String.mk (s.toList.take i ++ rep.toList ++ s.toList.drop (i + pat.toList.length))

/-! ## wrapInComment (source lines 328-345)

The source joins `['/*!', code, '*/']` (resp. `['<!--', code, '-->']`)
with `'\n'`, so the wrappers are newline-separated. -/

/-- `wrapInComment(type, code)`: comment style selected by the given
extension; `js`/`css` use the style-sheet comment, every other
extension (the `html` case and the `default` case coincide) the markup
comment.  The three parts are joined with newlines. -/
def wrapInComment (type code : String) : String :=
  if type = "js" || type = "css" then
    "/*!" ++ "\n" ++ code ++ "\n" ++ "*/"
  else
    "<!--" ++ "\n" ++ code ++ "\n" ++ "-->"

/-! ## Content resolution (downloadFile / readFile / getFile / parseFile,
source lines 60-73, 128-142, 228-252, 282-297) -/

/-- `downloadFile(url, reqOptions)`: one network fetch. -/
def downloadFile (env : Env) (url : String) : Pr Bytes :=
  ⟨env.fetch url, [Ev.fetch url]⟩

/-- `readFile(filepath)`: stream the file's chunks into one buffer; one
filesystem read. -/
def readFile (env : Env) (p : String) : Pr Bytes :=
  ⟨env.readF p, [Ev.readF p]⟩

/-- `getFile(source, reqOptions)`: fetch when the identifier is a URL,
read from disk otherwise. -/
def getFile (env : Env) (s : String) : Pr Bytes :=
  if env.isUrl s then downloadFile env s else readFile env s

/-- `parseFile(source, target, reqOptions)`: a non-URL identifier that
fails the path-validity check is immediately wrapped as a comment
chosen by the extension of the output target's path; otherwise the
bytes are fetched/read and utf-8 decoded, any failure falling back to
the same wrap.  (The source's `reject` branches fire only when
`target.path.split` itself throws, which cannot happen for the string
paths modelled here, so the embedding is total.) -/
def parseFile (env : Env) (s target : String) : Pr String :=
  if !env.isUrl s && env.isInvalidPath s then
    Pr.pure (wrapInComment (lastSeg target) s)
  else
    ((getFile env s).bind fun b => Pr.pure (env.toUtf8 b)).catchWith
      fun _ => Pr.pure (wrapInComment (lastSeg target) s)

/-- Pure value computed by `parseFile` (derived form used to state
theorems). -/
def parseFileResult (env : Env) (s target : String) : String :=
  if !env.isUrl s && env.isInvalidPath s then wrapInComment (lastSeg target) s
  else
    match (if env.isUrl s then env.fetch s else env.readF s) with
    | .ok b => env.toUtf8 b
    | .error _ => wrapInComment (lastSeg target) s

/-- I/O performed by `parseFile` (derived form used to state
theorems). -/
def parseFileEvents (env : Env) (s _target : String) : List Ev :=
  if !env.isUrl s && env.isInvalidPath s then []
  else if env.isUrl s then [Ev.fetch s] else [Ev.readF s]

inductive SourceEntry where
  | single (s : String)
  | group (files : List String)
deriving DecidableEq

/-- A Resolved Unit: the object `{code, minify, ext}` built by
`processSource`. -/
structure Results where
  code : String
  minify : Bool
  ext : String
deriving DecidableEq

/-- `processSource(source, target, reqOptions)`: a single identifier is
parsed and tagged with the minify-eligibility flag
`!isInvalidPath(source) && parts[parts.length - 2] !== 'min'` and the
extension taken from the identifier; a group is folded with
`Promise.reduce` from the empty string, each member's resolved text
appended after a `'\n'`, and tagged from the target path instead. -/
def processSource (env : Env) (source : SourceEntry) (target : String) : Pr Results :=
  match source with
  | .single s =>
      (parseFile env s target).bind fun code =>
        Pr.pure ⟨code, !env.isInvalidPath s && notMinNamed s, lastSeg s⟩
  | .group files =>
      (reduceM (fun code file =>
          (parseFile env file target).bind fun r => Pr.pure (code ++ "\n" ++ r)) "" files).bind
        fun code => Pr.pure ⟨code, notMinNamed target, lastSeg target⟩

/-- Pure value computed by `processSource` (derived form). -/
def processSourceResult (env : Env) (source : SourceEntry) (target : String) : Results :=
  match source with
  | .single s => ⟨parseFileResult env s target, !env.isInvalidPath s && notMinNamed s, lastSeg s⟩
  | .group files =>
      ⟨files.foldl (fun code f => code ++ "\n" ++ parseFileResult env f target) "",
       notMinNamed target, lastSeg target⟩

/-- I/O performed by `processSource` (derived form). -/
def processSourceEvents (env : Env) (source : SourceEntry) (target : String) : List Ev :=
  match source with
  | .single s => parseFileEvents env s target
  | .group files => (files.map (fun f => parseFileEvents env f target)).flatten

def litSM : List Char := "//# sourceMappingURL=".toList

/-- Characters matched by the regex metacharacter `.` (no line
terminators). -/
def dotChar (c : Char) : Bool := c ≠ '\n' && c ≠ '\r'

/-- Does `cs`, at position `i`, start a match of the source-map regex?
It must carry the literal and a later `.map` on the same line. -/
def smMatchAt (cs : List Char) (i : Nat) : Bool :=
  litSM.isPrefixOf (cs.drop i) &&
    (List.range (((cs.drop (i + litSM.length)).takeWhile dotChar).length + 1)).any
      (fun j => ".map".toList.isPrefixOf (((cs.drop (i + litSM.length)).takeWhile dotChar).drop j))

/-- `code.replace(/\/\/\# sourceMappingURL\=.*\.map\s*/, '')`. -/
def replaceSourceMap (s : String) : String :=
  let cs := s.toList
  match ((List.range (cs.length + 1)).filter (fun i => smMatchAt cs i)).head? with
  | none => s
  | some i =>
      let lineRest := (cs.drop (i + litSM.length)).takeWhile dotChar
      let mapEnd :=
        ((List.range (lineRest.length + 1)).filter
            (fun j => ".map".toList.isPrefixOf (lineRest.drop j))).getLastD 0 + 4
      let wsLen := ((cs.drop (i + litSM.length + mapEnd)).takeWhile jsWs).length
      String.mk (cs.take i ++ cs.drop (i + litSM.length + mapEnd + wsLen))

/-- The full cleansing step applied to a code string. -/
def cleanseCode (s : String) : String := jsTrim (replaceSourceMap s)

/-- `cleanseResults(results)`: strip the source-map comment and trim
the unit's code, leaving flag and extension alone. -/
def cleanseResults (r : Results) : Results := { r with code := cleanseCode r.code }

/-! ## The url(...) scanner of encodeExternalResources (source line 77)

`code.match(/url\s*\((\s*\'?\"?[^\s\"\']*\'?\"?\s*)\)/g)` and, per
match, the re-match extracting `([^\s\"\']*)`.  All quantifiers are
greedy with backtracking.  The leading `\s*` and the opening `\'?\"?`
are effectively deterministic (whitespace and each quote are excluded
from every element that could otherwise claim them, and shifting a
character between neighbouring optionals yields the same overall
match), but the body class `[^\s\"\']` ADMITS `)` — so after the body
swallows its maximal run, the engine backtracks it character by
character whenever the trailing `\'?\"?\s*\)` cannot complete, until
`\)` can consume a released `)`.  A released character is a body
character, which neither the optional quotes nor `\s*` can match, so
backtracking succeeds exactly at the LAST `)` inside the body run.
That is how the source matches unquoted references such as
`url(a.png)` and `url()`. -/

/-- Characters admitted by the class `[^\s\"\']` (note that `)` is
admitted). -/
def urlBodyChar (c : Char) : Bool := !jsWs c && c ≠ '"' && c ≠ squote

/-- Consume one optional character (`\'?` / `\"?`). -/
def optQ (c : Char) : List Char → Nat × List Char
  | [] => (0, [])
  | x :: xs => if x = c then (1, x :: xs |>.tail) else (0, x :: xs)

/-- Index of the last `)` in a list, if any: the position to which the
greedy body run is backtracked when the tail of the regex cannot
complete after the full run. -/
def lastParenIdx (l : List Char) : Option Nat :=
  ((List.range l.length).filter (fun j => l.get? j = some ')')).getLast?

/-- Match the url reference regex at the head of the list, returning
the length of the full match and the extracted (group) reference text.
First the maximal body run with the full trailing `\'?\"?\s*\)` is
tried; if the closing paren is not there, the body is backtracked to
the last `)` it swallowed, which the `\)` then consumes with the
trailing optionals empty. -/
def matchUrlAt : List Char → Option (Nat × String)
  | 'u' :: 'r' :: 'l' :: rest =>
      let ws1 := (rest.takeWhile jsWs).length
      match rest.drop ws1 with
      | '(' :: inner =>
          let ws2 := (inner.takeWhile jsWs).length
          let r3 := inner.drop ws2
          let (a1, r4) := optQ squote r3
          let (a2, r5) := optQ '"' r4
          let body := r5.takeWhile urlBodyChar
          let r6 := r5.drop body.length
          let (a3, r7) := optQ squote r6
          let (a4, r8) := optQ '"' r7
          let ws3 := (r8.takeWhile jsWs).length
          match r8.drop ws3 with
          | ')' :: _ =>
              some (3 + ws1 + 1 + ws2 + a1 + a2 + body.length + a3 + a4 + ws3 + 1,
                String.mk body)
          | _ =>
              match lastParenIdx body with
              | some j => some (3 + ws1 + 1 + ws2 + a1 + a2 + j + 1, String.mk (body.take j))
              | none => none
      | _ => none
  | _ => none

/-- Leftmost, non-overlapping global scan, as JavaScript
`String.prototype.match` with the `g` flag: returns each full match
together with its extracted reference text. -/
def scanUrlsAux : Nat → List Char → List (String × String)
  | 0, _ => []
  | _ + 1, [] => []
  | fuel + 1, c :: rest =>
      match matchUrlAt (c :: rest) with
      | some (n, u) => (String.mk ((c :: rest).take n), u) :: scanUrlsAux fuel ((c :: rest).drop n)
      | none => scanUrlsAux fuel rest

/-- All url references of a content string, in textual order. -/
def scanUrls (cs : List Char) : List (String × String) :=
  scanUrlsAux cs.length cs

/-! ## encodeExternalResources (source lines 75-126)

`Promise.each` over the matches, sequentially; the closure variable
`code` is reassigned by `replace` after each successful resource, and
the final `.catch` resolves that same (possibly already partially
rewritten) variable. -/

/-- The rewritten reference text
`['url(\'', 'data:', mime, ';charset=utf-8;', 'base64,', data, '\')'].join('')`. -/
def dataUri (mime b64 : String) : String :=
  "url('data:" ++ mime ++ ";charset=utf-8;" ++ "base64," ++ b64 ++ "')"

/-- Media-type classification of fetched bytes: `fileType(file)`, with
the `isSvg` fallback assigning `image/svg+xml`; `none` means the
`type.mime` access of the source throws. -/
def classify (env : Env) (b : Bytes) : Option String :=
  match env.fileType b with
  | some t => some t
  | none => if env.isSvg (env.toUtf8 b) then some "image/svg+xml" else none

/-- Resolution of one referenced resource: `http(s)://` references are
fetched (the source passes no transport options here), anything else is
read relative to the directory of the entry's own location;
`path.dirname` applied to a group (an array, not a string) throws. -/
def resolveRef (env : Env) (src : SourceEntry) (u : String) :
    Except String Bytes × List Ev :=
  if strPrefix "http://" u || strPrefix "https://" u then
    (env.fetch u, [Ev.fetch u])
  else
    match src with
    | .single s => (env.readF (joinPath (dirname s) u), [Ev.readF (joinPath (dirname s) u)])
    | .group _ => (.error "TypeError: path must be a string", [])

/-- One iteration of the `Promise.each` body: skip data URIs, resolve
the resource, classify it, and rewrite the first occurrence of the full
match in the current content; `.error` is the thrown-error case. -/
def inlineOne (env : Env) (src : SourceEntry) (code : String) (m : String × String) :
    Except String String × List Ev :=
  if strPrefix "data:" (jsTrim m.2) then (.ok code, [])
  else
    match resolveRef env src (jsTrim m.2) with
    | (.error e, t) => (.error e, t)
    | (.ok b, t) =>
        match classify env b with
        | none => (.error "TypeError: cannot read mime of undefined", t)
        | some mime => (.ok (replaceFirst code m.1 (dataUri mime (env.toBase64 b))), t)

/-- Outcome of the whole match loop: the final content (all successful
rewrites applied), its I/O, and whether an error was caught (the
`debug(err)` branch of the source). -/
structure EncodeOut where
  code : String
  trace : List Ev
  aborted : Bool
deriving DecidableEq

/-- The `Promise.each` loop over the matches: on the first error the
loop stops and the current content — including the rewrites already
performed — is what the `.catch` resolves. -/
def encodeLoop (env : Env) (src : SourceEntry) : List (String × String) → String → EncodeOut
  | [], code => ⟨code, [], false⟩
  | m :: ms, code =>
      match inlineOne env src code m with
      | (.ok code2, t) =>
          let r := encodeLoop env src ms code2
          ⟨r.code, t ++ r.trace, r.aborted⟩
      | (.error _, t) => ⟨code, t, true⟩

/-- `encodeExternalResources(code, source)`: scan, loop, and always
resolve (the `.catch` turns any error into the current content). -/
def encodeExternalResources (env : Env) (code : String) (src : SourceEntry) : Pr String :=
  let r := encodeLoop env src (scanUrls code.toList) code
  ⟨.ok r.code, r.trace⟩

/-- Final content of the inlining step (derived form). -/
def encodeResult (env : Env) (code : String) (src : SourceEntry) : String :=
  (encodeLoop env src (scanUrls code.toList) code).code

/-- I/O of the inlining step (derived form). -/
def encodeEvents (env : Env) (code : String) (src : SourceEntry) : List Ev :=
  (encodeLoop env src (scanUrls code.toList) code).trace

/-! ## attemptMinify (source lines 20-34, 182-226)

Dispatch by extension to the external obfuscator/minifier (their fixed
baseline plus user options live behind `Env.minifyJs`/`Env.minifyCss`);
every error falls back to the original code. -/

/-- `attemptMinify(type, code, options)` as the content transformation
it performs. -/
def attemptMinify (env : Env) (type code : String) : String :=
  match type with
  | "js" =>
      match env.minifyJs code with
      | .ok r => r
      | .error _ => code
  | "css" =>
      match env.minifyCss code with
      | .ok r => r
      | .error _ => code
  | _ => code

/-! ## loopFiles and bundle (source lines 36-52, 144-180) -/

/-- `options.minify || NODE_ENV matches production`. -/
def isProd (env : Env) (opts : Options) : Bool := opts.minify || env.prod

/-- The per-entry body of `loopFiles`' `Promise.each`: resolve, cleanse,
inline unless the extension is `js`, minify when production-mode and
eligible, then write the result plus a newline to the target. -/
def entryPipeline (env : Env) (opts : Options) (target : String) (source : SourceEntry) :
    Pr Unit :=
  (processSource env source target).bind fun results0 =>
  (let results1 := cleanseResults results0
   if results1.ext = "js" then Pr.pure results1
   else
     (encodeExternalResources env results1.code source).bind fun code =>
       Pr.pure { results1 with code := code }).bind fun results2 =>
  (if !isProd env opts || (isProd env opts && !results2.minify) then Pr.pure results2.code
   else ⟨.ok (attemptMinify env results2.ext results2.code), [Ev.minifyCall results2.ext]⟩).bind
    fun out => ⟨.ok (), [Ev.write (out ++ "\n")]⟩

/-- `loopFiles(sources, target, options, reqOptions)`. -/
def loopFiles (env : Env) (opts : Options) (sources : List SourceEntry) (target : String) :
    Pr Unit :=
  eachM (entryPipeline env opts target) sources

/-- The Resolved Unit as it stands after cleansing and (for non-`js`
extensions) inlining (derived form). -/
def entryUnit (env : Env) (target : String) (source : SourceEntry) : Results :=
  if (cleanseResults (processSourceResult env source target)).ext = "js" then
    cleanseResults (processSourceResult env source target)
  else
    { cleanseResults (processSourceResult env source target) with
      code := encodeResult env (cleanseResults (processSourceResult env source target)).code
        source }

/-- The string written for one entry, without the trailing newline
(derived form). -/
def entrySegment (env : Env) (opts : Options) (target : String) (source : SourceEntry) :
    String :=
  if isProd env opts && (entryUnit env target source).minify then
    attemptMinify env (entryUnit env target source).ext (entryUnit env target source).code
  else (entryUnit env target source).code

/-- The I/O one entry performs before its write (derived form). -/
def entryPre (env : Env) (opts : Options) (target : String) (source : SourceEntry) :
    List Ev :=
  processSourceEvents env source target ++
    (if (cleanseResults (processSourceResult env source target)).ext = "js" then []
     else encodeEvents env (cleanseResults (processSourceResult env source target)).code
       source) ++
    (if isProd env opts && (entryUnit env target source).minify then
       [Ev.minifyCall (entryUnit env target source).ext]
     else [])

def writesOf : List Ev → List String
  | [] => []
  | Ev.write s :: t => s :: writesOf t
  | _ :: t => writesOf t

/-- `bundle(sources, destination, options, reqOptions)`: opens the
destination stream, runs `loopFiles`, and closes it; its observable
output is the concatenation of the written chunks.  The source's watch
handoff (lines 46-50: after the pass, when `options.watch` is truthy,
`watch()` is invoked) is modelled separately by the `WatchSys`
transitions below — this embedding covers the bundling pass itself and
is used for output-content claims, under a `watch = false` hypothesis
where the handoff matters. -/
def bundle (env : Env) (opts : Options) (sources : List SourceEntry) (destination : String) :
    Pr Unit :=
  loopFiles env opts sources destination

/-- The bytes the destination file receives in one bundling pass. -/
def bundleOutput (env : Env) (opts : Options) (sources : List SourceEntry)
    (destination : String) : String :=
  String.join (writesOf (bundle env opts sources destination).trace)

/-! ## The watch controller (source lines 36-52, 299-326)

Each invocation of `watch()` creates one chokidar watcher over the
source paths and one fresh `Throttle(1)` execution gate; all five event
kinds (`add`/`change`/`unlink`/`addDir`/`unlinkDir`) run the same
handler, which acquires that gate with a callback that first empties
the gate's pending queue (`throttle.clear()`) and then runs one
bundling pass.  Crucially, `bundle` itself (line 50) re-invokes
`watch()` after every pass it runs with `options.watch` truthy — the
recursive call passes the same options — so each completed
watch-triggered pass creates a FRESH watcher and a FRESH gate on the
same paths, and the old watchers are never closed.  A filesystem event
therefore fires the handler of EVERY live watcher.  The per-gate
acquire/release behaviour is modelled from the spec (the gate is the
external `generic-throttle` dependency, not under src/): an idle gate
runs the callback at once, a busy gate queues it, and a completing pass
hands the slot to one queued callback, whose `clear()` empties the
queue.  The watch-system state is the list of live gates. -/

/-- One `Throttle(1)` gate: number of in-flight passes it holds (0 or
1) and the length of its pending queue. -/
structure GateState where
  inflight : Nat
  pending : Nat
deriving DecidableEq

/-- All live gates of the watch session, in creation order. -/
abbrev WatchSys := List GateState

/-- One filesystem event: chokidar delivers it to every live watcher,
so every gate receives an acquire - an idle gate starts a pass (its
callback clearing that gate's queue first), a busy gate queues the
callback.  The second component counts the bundling passes started by
this single event. -/
def fireAll (ws : WatchSys) : WatchSys × Nat :=
  (ws.map (fun g =>
     if g.inflight < 1 then ⟨g.inflight + 1, 0⟩ else ⟨g.inflight, g.pending + 1⟩),
   (ws.filter (fun g => g.inflight < 1)).length)

/-- A completing pass releases its gate's slot: one queued callback, if
any, runs next (clearing the rest of the queue). -/
def releaseGate (g : GateState) : GateState × Nat :=
  if 0 < g.pending then (⟨g.inflight, 0⟩, 1) else (⟨g.inflight - 1, g.pending⟩, 0)

/-- Completion of the in-flight pass of gate `i` in watch mode: before
the pass's promise settles, `bundle` re-invokes `watch()` (source line
50), appending a fresh watcher/gate; then gate `i` releases its
slot. -/
def completeAt (ws : WatchSys) (i : Nat) : WatchSys × Nat :=
  match ws.get? i with
  | none => (ws, 0)
  | some g => ((ws.set i (releaseGate g).1) ++ [⟨0, 0⟩], (releaseGate g).2)

/-- Total bundling passes currently in flight across all live gates. -/
def totalInflight (ws : WatchSys) : Nat := (ws.map (fun g => g.inflight)).sum

/-! ## Derived definitions used to state the claims -/

/-- Join a list of strings with single newline separators (n - 1
separators, none leading or trailing). -/
def joinWithNL : List String → String
  | [] => ""
  | [a] => a
  | a :: b :: rest => a ++ "\n" ++ joinWithNL (b :: rest)

/-- Does one referenced resource resolve and classify successfully? -/
def refResolvesB (env : Env) (src : SourceEntry) (u : String) : Bool :=
  match (resolveRef env src u).1 with
  | .ok b => (classify env b).isSome
  | .error _ => false

/-- Modelled from the spec: rewrite each non-data reference of the
match list, in left-to-right order, to
`url('data:<mime>;charset=utf-8;base64,<data>')`, leaving data-URI
references untouched (the comparison definition for the inliner's
success path). -/
def specInline (env : Env) (src : SourceEntry) : List (String × String) → String → String
  | [], code => code
  | m :: ms, code =>
      if strPrefix "data:" (jsTrim m.2) then specInline env src ms code
      else
        match (resolveRef env src (jsTrim m.2)).1 with
        | .error _ => specInline env src ms code
        | .ok b =>
            match classify env b with
            | none => specInline env src ms code
            | some mime =>
                specInline env src ms (replaceFirst code m.1 (dataUri mime (env.toBase64 b)))

/-! ## Concrete environments used for witnesses and counterexamples -/

/-- Every identifier is literal text: nothing is a URL, everything
fails the path-validity check, all I/O fails. -/
def envLit : Env where
  isUrl := fun _ => false
  isInvalidPath := fun _ => true
  fetch := fun _ => .error "ENOTFOUND"
  readF := fun _ => .error "ENOENT"
  fileType := fun _ => none
  isSvg := fun _ => false
  toUtf8 := fun _ => ""
  toBase64 := fun _ => ""
  prod := false
  minifyJs := fun _ => .error "obfuscation failed"
  minifyCss := fun _ => .error "minification failed"

/-- Every path is valid and readable; every file holds the single byte
65, decoding to `A`. -/
def envFile : Env :=
  { envLit with
    isInvalidPath := fun _ => false
    readF := fun _ => .ok [65]
    toUtf8 := fun b => if b = [65] then "A" else "" }

/-- A style sheet referencing `a.png` (a classifiable png) and `b.bin`
(readable but with no sniffable signature and no svg markup, so its
classification throws). -/
def envInlineErr : Env :=
  { envLit with
    isInvalidPath := fun _ => false
    readF := fun p =>
      if p = "a.png" then .ok [1] else if p = "b.bin" then .ok [2] else .error "ENOENT"
    fileType := fun b => if b = [1] then some "image/png" else none
    toBase64 := fun b => if b = [1] then "AQ==" else "" }

/-- As `envInlineErr` but with both referenced resources
classifiable. -/
def envInlineOk : Env :=
  { envInlineErr with
    fileType := fun b =>
      if b = [1] then some "image/png" else if b = [2] then some "image/gif" else none
    toBase64 := fun b => if b = [1] then "AQ==" else if b = [2] then "Ag==" else "" }

/-- A pipeline environment: `s.css` is a style sheet referencing
`a.png`, `a.min.js` is a script named as already minified, and the
obfuscator prefixes `MIN `. -/
def envPipe : Env :=
  { envLit with
    isInvalidPath := fun _ => false
    readF := fun p =>
      if p = "s.css" then .ok [7]
      else if p = "a.png" then .ok [1]
      else if p = "a.min.js" then .ok [8]
      else .error "ENOENT"
    toUtf8 := fun b =>
      if b = [7] then "u: url('a.png')" else if b = [8] then "var a = 1" else ""
    fileType := fun b => if b = [1] then some "image/png" else none
    toBase64 := fun b => if b = [1] then "AQ==" else ""
    minifyJs := fun c => .ok ("MIN " ++ c) }

/-- An environment whose obfuscator succeeds but returns code that
still carries a source-map comment and trailing whitespace. -/
def envMinBad : Env :=
  { envLit with
    isInvalidPath := fun _ => false
    readF := fun p => if p = "a.js" then .ok [9] else .error "ENOENT"
    toUtf8 := fun b => if b = [9] then "var b = 2" else ""
    minifyJs := fun _ => .ok "M\n//# sourceMappingURL=x.map  " }

/-- One URL source whose network fetch fails. -/
def envFetchFail : Env :=
  { envLit with
    isUrl := fun s => s = "http://x/y.js"
    isInvalidPath := fun _ => false
    fetch := fun _ => .error "ECONNREFUSED" }

/-- Options with everything off. -/
def opts0 : Options := ⟨false, false⟩

/-- Options forcing minification. -/
def optsMin : Options := ⟨true, false⟩

/-! ## Factorization and trace lemmas -/

theorem parseFile_eq (env : Env) (s target : String) :
    parseFile env s target =
      ⟨.ok (parseFileResult env s target), parseFileEvents env s target⟩ := by
  unfold parseFile parseFileResult parseFileEvents getFile downloadFile readFile
  by_cases hv : (!env.isUrl s && env.isInvalidPath s) = true
  · simp [hv, Pr.pure]
  · simp only [hv]
    by_cases hu : env.isUrl s
    · simp only [hu, if_true, if_pos]
      cases hf : env.fetch s with
      | ok b => simp [Pr.bind, Pr.catchWith, Pr.pure, hf]
      | error e => simp [Pr.bind, Pr.catchWith, Pr.pure, hf]
    · simp only [hu, if_false, if_neg, Bool.false_eq_true, not_false_iff]
      cases hr : env.readF s with
      | ok b => simp [Pr.bind, Pr.catchWith, Pr.pure, hr, hu]
      | error e => simp [Pr.bind, Pr.catchWith, Pr.pure, hr, hu]

/-! ## Source entries and resolved units (processSource, source lines 254-280) -/

/-- A configured Source Entry: a single location identifier or an
ordered group of identifiers (`typeof(source) !== 'object'` dispatch in
the source). -/
theorem reduceM_pure (g : β → α → β) (ev : α → List Ev) (f : β → α → Pr β)
    (hf : ∀ b a, f b a = ⟨.ok (g b a), ev a⟩) :
    ∀ (l : List α) (b : β), reduceM f b l = ⟨.ok (l.foldl g b), (l.map ev).flatten⟩ := by
  intro l
  induction l with
  | nil => intro b; simp [reduceM, Pr.pure]
  | cons a rest ih =>
      intro b
      show (f b a).bind (fun b2 => reduceM f b2 rest) = _
      rw [hf]
      simp [Pr.bind, ih]

theorem eachM_pure (ev : α → List Ev) (f : α → Pr Unit)
    (hf : ∀ a, f a = ⟨.ok (), ev a⟩) :
    ∀ l : List α, eachM f l = ⟨.ok (), (l.map ev).flatten⟩ := by
  intro l
  induction l with
  | nil => simp [eachM, Pr.pure]
  | cons a rest ih =>
      show (f a).bind (fun _ => eachM f rest) = _
      rw [hf]
      simp [Pr.bind, ih]

theorem processSource_eq (env : Env) (source : SourceEntry) (target : String) :
    processSource env source target =
      ⟨.ok (processSourceResult env source target), processSourceEvents env source target⟩ := by
  cases source with
  | single s =>
      simp [processSource, processSourceResult, processSourceEvents, parseFile_eq,
        Pr.bind, Pr.pure]
  | group files =>
      rw [processSource,
        reduceM_pure (fun code f => code ++ "\n" ++ parseFileResult env f target)
          (fun f => parseFileEvents env f target) _
          (by intro b a; rw [parseFile_eq]; simp [Pr.bind, Pr.pure])]
      simp [processSourceResult, processSourceEvents, Pr.bind, Pr.pure]

/-! ## cleanseResults (source lines 54-58)

`results.code.replace(/\/\/\# sourceMappingURL\=.*\.map\s*/, '').trim()`:
remove the first match of the source-map-comment regex (the literal
`//# sourceMappingURL=`, then any non-line-break characters up to the
last `.map` on that line, then any following whitespace), then trim. -/

/-- The literal prefix of the source-map regex. -/
theorem entryPipeline_eq (env : Env) (opts : Options) (target : String)
    (source : SourceEntry) :
    entryPipeline env opts target source =
      ⟨.ok (), entryPre env opts target source ++
        [Ev.write (entrySegment env opts target source ++ "\n")]⟩ := by
  unfold entryPipeline entryPre entrySegment entryUnit
  rw [processSource_eq]
  by_cases hj : (cleanseResults (processSourceResult env source target)).ext = "js" <;>
    cases hp : isProd env opts <;>
    cases hm : (cleanseResults (processSourceResult env source target)).minify <;>
    simp [Pr.bind, Pr.pure, encodeExternalResources, encodeResult, encodeEvents, hj, hp, hm]

/-- Projection of a trace onto its writes. -/
theorem loopFiles_eq (env : Env) (opts : Options) (sources : List SourceEntry)
    (target : String) :
    loopFiles env opts sources target =
      ⟨.ok (), (sources.map (fun s => entryPre env opts target s ++
        [Ev.write (entrySegment env opts target s ++ "\n")])).flatten⟩ := by
  unfold loopFiles
  exact eachM_pure _ _ (fun s => entryPipeline_eq env opts target s) sources

/-! ## Shape of the pre-write traces -/

theorem parseFileEvents_mem (env : Env) (s target : String) (ev : Ev)
    (h : ev ∈ parseFileEvents env s target) :
    (∃ u, ev = Ev.fetch u) ∨ (∃ p, ev = Ev.readF p) := by
  unfold parseFileEvents at h
  split at h
  · simp at h
  · split at h <;> simp at h <;> simp [h]

theorem processSourceEvents_mem (env : Env) (source : SourceEntry) (target : String) (ev : Ev)
    (h : ev ∈ processSourceEvents env source target) :
    (∃ u, ev = Ev.fetch u) ∨ (∃ p, ev = Ev.readF p) := by
  cases source with
  | single s => exact parseFileEvents_mem env s target ev h
  | group files =>
      unfold processSourceEvents at h
      rw [List.mem_flatten] at h
      obtain ⟨l, hl, hev⟩ := h
      rw [List.mem_map] at hl
      obtain ⟨f, _, rfl⟩ := hl
      exact parseFileEvents_mem env f target ev hev

theorem inlineOne_trace_mem (env : Env) (src : SourceEntry) (code : String)
    (m : String × String) (ev : Ev) (h : ev ∈ (inlineOne env src code m).2) :
    (∃ u, ev = Ev.fetch u) ∨ (∃ p, ev = Ev.readF p) := by
  unfold inlineOne at h
  split at h
  · simp at h
  · have hr : ∀ ev' : Ev, ev' ∈ (resolveRef env src (jsTrim m.2)).2 →
        (∃ u, ev' = Ev.fetch u) ∨ (∃ p, ev' = Ev.readF p) := by
      intro ev' hev
      unfold resolveRef at hev
      split at hev
      · simp at hev; simp [hev]
      · cases src with
        | single s => simp at hev; simp [hev]
        | group files => simp at hev
    split at h
    next e t heq => exact hr ev (by rw [heq]; simpa using h)
    next b t heq =>
        split at h <;> exact hr ev (by rw [heq]; simpa using h)

theorem encodeLoop_trace_mem (env : Env) (src : SourceEntry) :
    ∀ (ms : List (String × String)) (code : String) (ev : Ev),
      ev ∈ (encodeLoop env src ms code).trace →
      (∃ u, ev = Ev.fetch u) ∨ (∃ p, ev = Ev.readF p) := by
  intro ms
  induction ms with
  | nil => intro code ev h; simp [encodeLoop] at h
  | cons m rest ih =>
      intro code ev h
      unfold encodeLoop at h
      split at h
      next code2 t heq =>
          simp only [List.mem_append] at h
          rcases h with h | h
          · exact inlineOne_trace_mem env src code m ev (by rw [heq]; exact h)
          · exact ih code2 ev h
      next t heq =>
          exact inlineOne_trace_mem env src code m ev (by rw [heq]; exact h)

theorem writesOf_eq_nil (l : List Ev)
    (h : ∀ ev ∈ l, (∃ u, ev = Ev.fetch u) ∨ (∃ p, ev = Ev.readF p)) :
    writesOf l = [] := by
  induction l with
  | nil => rfl
  | cons e t ih =>
      have he := h e (by simp)
      have ht := ih (fun ev hev => h ev (by simp [hev]))
      rcases he with ⟨u, rfl⟩ | ⟨p, rfl⟩ <;> simpa [writesOf]

theorem writesOf_append (l1 l2 : List Ev) :
    writesOf (l1 ++ l2) = writesOf l1 ++ writesOf l2 := by
  induction l1 with
  | nil => rfl
  | cons e t ih => cases e <;> simp [writesOf, ih]

theorem writesOf_entryPre (env : Env) (opts : Options) (target : String)
    (source : SourceEntry) : writesOf (entryPre env opts target source) = [] := by
  unfold entryPre
  rw [writesOf_append, writesOf_append]
  rw [writesOf_eq_nil _ (processSourceEvents_mem env source target)]
  have h2 : writesOf (if (cleanseResults (processSourceResult env source target)).ext = "js"
      then ([] : List Ev)
      else encodeEvents env (cleanseResults (processSourceResult env source target)).code source) = [] := by
    split
    · rfl
    · exact writesOf_eq_nil _ (fun ev hev => encodeLoop_trace_mem env source _ _ ev hev)
  rw [h2]
  split <;> rfl

theorem minifyCall_not_mem_entryParts (env : Env) (target : String) (source : SourceEntry)
    (e : String) :
    Ev.minifyCall e ∉ processSourceEvents env source target ∧
    ∀ c : String, Ev.minifyCall e ∉ encodeEvents env c source := by
  constructor
  · intro h
    rcases processSourceEvents_mem env source target _ h with ⟨u, hu⟩ | ⟨p, hp⟩ <;> simp_all
  · intro c h
    rcases encodeLoop_trace_mem env source _ _ _ h with ⟨u, hu⟩ | ⟨p, hp⟩ <;> simp_all

theorem writesOf_entries (env : Env) (opts : Options) (target : String)
    (sources : List SourceEntry) :
    writesOf ((sources.map (fun s => entryPre env opts target s ++
        [Ev.write (entrySegment env opts target s ++ "\n")])).flatten)
      = sources.map (fun s => entrySegment env opts target s ++ "\n") := by
  induction sources with
  | nil => rfl
  | cons s rest ih =>
      simp only [List.map_cons, List.flatten_cons, writesOf_append, writesOf_entryPre, ih]
      simp [writesOf]

theorem encodeLoop_append (env : Env) (src : SourceEntry) (ms1 ms2 : List (String × String)) :
    ∀ code : String, (encodeLoop env src ms1 code).aborted = false →
      encodeLoop env src (ms1 ++ ms2) code =
        ⟨(encodeLoop env src ms2 (encodeLoop env src ms1 code).code).code,
         (encodeLoop env src ms1 code).trace ++
           (encodeLoop env src ms2 (encodeLoop env src ms1 code).code).trace,
         (encodeLoop env src ms2 (encodeLoop env src ms1 code).code).aborted⟩ := by
  induction ms1 with
  | nil => intro code _; simp [encodeLoop]
  | cons m rest ih =>
      intro code h
      cases hio : inlineOne env src code m with
      | mk r t =>
          cases r with
          | ok code2 =>
              have e1 : encodeLoop env src ((m :: rest) ++ ms2) code
                  = ⟨(encodeLoop env src (rest ++ ms2) code2).code,
                     t ++ (encodeLoop env src (rest ++ ms2) code2).trace,
                     (encodeLoop env src (rest ++ ms2) code2).aborted⟩ := by
                simp [encodeLoop, hio]
              have e2 : encodeLoop env src (m :: rest) code
                  = ⟨(encodeLoop env src rest code2).code,
                     t ++ (encodeLoop env src rest code2).trace,
                     (encodeLoop env src rest code2).aborted⟩ := by
                simp [encodeLoop, hio]
              rw [e2] at h
              rw [e1, e2, ih code2 h]
              simp
          | error e' =>
              exfalso
              have e2 : encodeLoop env src (m :: rest) code = ⟨code, t, true⟩ := by
                simp [encodeLoop, hio]
              rw [e2] at h
              simp at h

theorem encodeLoop_success (env : Env) (src : SourceEntry) :
    ∀ (ms : List (String × String)) (code : String),
      (∀ mu ∈ ms, strPrefix "data:" (jsTrim mu.2) = false →
        refResolvesB env src (jsTrim mu.2) = true) →
      (encodeLoop env src ms code).code = specInline env src ms code ∧
      (encodeLoop env src ms code).aborted = false := by
  intro ms
  induction ms with
  | nil => intro code _; exact ⟨rfl, rfl⟩
  | cons m rest ih =>
      intro code h
      have htail : ∀ mu ∈ rest, strPrefix "data:" (jsTrim mu.2) = false →
          refResolvesB env src (jsTrim mu.2) = true :=
        fun mu hmu => h mu (by simp [hmu])
      by_cases hd : strPrefix "data:" (jsTrim m.2) = true
      · have hio : inlineOne env src code m = (.ok code, []) := by
          unfold inlineOne
          rw [if_pos hd]
        have hrest := ih code htail
        constructor
        · show (encodeLoop env src (m :: rest) code).code = _
          simp only [encodeLoop, hio]
          rw [hrest.1]
          simp [specInline, hd]
        · show (encodeLoop env src (m :: rest) code).aborted = _
          simp only [encodeLoop, hio]
          exact hrest.2
      · have hd' : strPrefix "data:" (jsTrim m.2) = false := by
          cases hval : strPrefix "data:" (jsTrim m.2)
          · rfl
          · exact absurd hval hd
        have hm := h m (by simp) hd'
        unfold refResolvesB at hm
        cases hr : (resolveRef env src (jsTrim m.2)).1 with
        | error e => rw [hr] at hm; simp at hm
        | ok b =>
            rw [hr] at hm
            simp only [Option.isSome_iff_exists] at hm
            cases hc : classify env b with
            | none => rw [hc] at hm; simp at hm
            | some mime =>
                have hpair : resolveRef env src (jsTrim m.2)
                    = (.ok b, (resolveRef env src (jsTrim m.2)).2) := by
                  rw [← hr]
                have hio : inlineOne env src code m
                    = (.ok (replaceFirst code m.1 (dataUri mime (env.toBase64 b))),
                       (resolveRef env src (jsTrim m.2)).2) := by
                  unfold inlineOne
                  rw [if_neg (by rw [hd']; exact Bool.false_ne_true), hpair]
                  simp [hc]
                have hrest := ih (replaceFirst code m.1 (dataUri mime (env.toBase64 b))) htail
                constructor
                · show (encodeLoop env src (m :: rest) code).code = _
                  simp only [encodeLoop, hio]
                  rw [hrest.1]
                  simp only [specInline, hd', Bool.false_eq_true, if_false, hr, hc]
                · show (encodeLoop env src (m :: rest) code).aborted = _
                  simp only [encodeLoop, hio]
                  exact hrest.2

theorem entryUnit_minify (env : Env) (target : String) (source : SourceEntry) :
    (entryUnit env target source).minify = (processSourceResult env source target).minify := by
  unfold entryUnit cleanseResults
  split <;> rfl

theorem entryUnit_ext (env : Env) (target : String) (source : SourceEntry) :
    (entryUnit env target source).ext = (processSourceResult env source target).ext := by
  unfold entryUnit cleanseResults
  split <;> rfl

theorem parseFileResult_target (env : Env) (f d1 d2 : String)
    (hext : lastSeg d1 = lastSeg d2) :
    parseFileResult env f d1 = parseFileResult env f d2 := by
  unfold parseFileResult
  rw [hext]

theorem processSourceResult_target (env : Env) (src : SourceEntry) (d1 d2 : String)
    (hext : lastSeg d1 = lastSeg d2) :
    (processSourceResult env src d1).code = (processSourceResult env src d2).code ∧
    (processSourceResult env src d1).ext = (processSourceResult env src d2).ext := by
  cases src with
  | single s => simp [processSourceResult, parseFileResult_target env s d1 d2 hext]
  | group files =>
      constructor
      · show files.foldl (fun code f => code ++ "\n" ++ parseFileResult env f d1) "" = _
        have hfun : (fun (code : String) (f : String) => code ++ "\n" ++ parseFileResult env f d1)
            = fun code f => code ++ "\n" ++ parseFileResult env f d2 := by
          funext code f
          rw [parseFileResult_target env f d1 d2 hext]
        rw [hfun]
        rfl
      · show lastSeg d1 = lastSeg d2
        exact hext

theorem entryUnit_target (env : Env) (d1 d2 : String) (s : SourceEntry)
    (hext : lastSeg d1 = lastSeg d2) :
    (entryUnit env d1 s).code = (entryUnit env d2 s).code ∧
    (entryUnit env d1 s).ext = (entryUnit env d2 s).ext := by
  have hc := (processSourceResult_target env s d1 d2 hext).1
  have he := (processSourceResult_target env s d1 d2 hext).2
  by_cases hj : (processSourceResult env s d1).ext = "js"
  · have hj2 : (processSourceResult env s d2).ext = "js" := he.symm.trans hj
    constructor <;> simp [entryUnit, cleanseResults, hj, hj2, hc, he]
  · have hj2 : ¬(processSourceResult env s d2).ext = "js" := fun hx => hj (he.trans hx)
    constructor <;> simp [entryUnit, cleanseResults, hj, hj2, hc, he]

theorem entrySegment_target (env : Env) (opts : Options) (d1 d2 : String) (s : SourceEntry)
    (hm : isProd env opts = false) (hext : lastSeg d1 = lastSeg d2) :
    entrySegment env opts d1 s = entrySegment env opts d2 s := by
  unfold entrySegment
  rw [hm]
  simp only [Bool.false_and, Bool.false_eq_true, if_false]
  exact (entryUnit_target env d1 d2 s hext).1

theorem foldl_group (g : String → String) :
    ∀ (l : List String) (acc : String), l ≠ [] →
      l.foldl (fun c f => c ++ "\n" ++ g f) acc = acc ++ "\n" ++ joinWithNL (l.map g) := by
  intro l
  induction l with
  | nil => intro acc h; exact absurd rfl h
  | cons a rest ih =>
      intro acc _
      cases rest with
      | nil => simp [List.foldl, joinWithNL]
      | cons b rest2 =>
          have hr := ih (acc ++ "\n" ++ g a) (by simp)
          simp only [List.foldl_cons] at hr ⊢
          rw [hr]
          simp [joinWithNL, String.append_assoc]

theorem writesOf_entryPipeline (env : Env) (opts : Options) (target : String)
    (source : SourceEntry) :
    writesOf (entryPipeline env opts target source).trace
      = [entrySegment env opts target source ++ "\n"] := by
  rw [entryPipeline_eq]
  show writesOf (entryPre env opts target source ++
    [Ev.write (entrySegment env opts target source ++ "\n")]) = _
  rw [writesOf_append, writesOf_entryPre]
  rfl

/-! ## The claims -/

/-- C1: one bundling pass over any source list never rejects; its trace is
exactly the per-entry traces in source-list order, each consisting of that
entry's resolution/inlining/minification events followed by that entry's
single write; the projection onto writes is exactly the N newline-terminated
segments, one per entry, in source-list order.  In particular entry i+1's
resolution I/O occurs only after entry i's write. -/
theorem loopFiles_sequential_writes (env : Env) (opts : Options) (target : String)
    (sources : List SourceEntry) :
    (loopFiles env opts sources target).res = .ok () ∧
    (loopFiles env opts sources target).trace
      = (sources.map (fun s => entryPre env opts target s ++
          [Ev.write (entrySegment env opts target s ++ "\n")])).flatten ∧
    writesOf (loopFiles env opts sources target).trace
      = sources.map (fun s => entrySegment env opts target s ++ "\n") ∧
    ∀ s : SourceEntry, writesOf (entryPre env opts target s) = [] := by
  refine ⟨?_, ?_, ?_, fun s => writesOf_entryPre env opts target s⟩
  · rw [loopFiles_eq]
  · rw [loopFiles_eq]
  · rw [loopFiles_eq]
    exact writesOf_entries env opts target sources

/-- C3: the code violates the claim.  Starting from the state right after
`watch()` first runs (one idle watcher/gate), one change event starts one
pass; when that pass completes, `bundle` re-invokes `watch()` and a second
live watcher/gate appears; the NEXT single change event fires both watchers'
handlers and starts TWO bundling passes at once — two passes in flight and
two passes from one event, not the at-most-one-in-flight, coalesce-to-one
behaviour the claim states. -/
theorem watch_respawn_two_inflight :
    fireAll [⟨0, 0⟩] = ([⟨1, 0⟩], 1) ∧
    completeAt [⟨1, 0⟩] 0 = ([⟨0, 0⟩, ⟨0, 0⟩], 0) ∧
    fireAll [⟨0, 0⟩, ⟨0, 0⟩] = ([⟨1, 0⟩, ⟨1, 0⟩], 2) ∧
    totalInflight [⟨1, 0⟩, ⟨1, 0⟩] = 2 ∧
    ¬ totalInflight [⟨1, 0⟩, ⟨1, 0⟩] ≤ 1 := by
  refine ⟨by decide, by decide, by decide, by decide, by decide⟩

/-- C4 counterexample: the literal fallback wraps with newline-joined comment
delimiters, so the destination-chosen comment is `/*!`, newline, text,
newline, `*/` — not the single-line `/*! <text> */` form the claim states. -/
theorem literal_wrap_spacing_cex :
    (parseFile envLit "hi" "o.js").res = .ok "/*!\nhi\n*/" ∧
    (parseFile envLit "hi" "o.js").trace = [] ∧
    ("/*!\nhi\n*/" : String) ≠ "/*! hi */" := by
  refine ⟨by decide, by decide, by decide⟩

/-- C4 (amended): a source identifier that is not a URL and fails the
path-validity check resolves immediately with no filesystem or network I/O,
to the identifier wrapped in the comment style selected by the OUTPUT
destination's extension: `/*!` + newline + text + newline + `*/` when the
destination path's final dot-segment is `js` or `css`, and `<!--` + newline +
text + newline + `-->` otherwise. -/
theorem literal_fallback_no_io (env : Env) (s target : String)
    (h1 : env.isUrl s = false) (h2 : env.isInvalidPath s = true) :
    parseFile env s target = ⟨.ok (wrapInComment (lastSeg target) s), []⟩ ∧
    (lastSeg target = "js" ∨ lastSeg target = "css" →
      wrapInComment (lastSeg target) s = "/*!" ++ "\n" ++ s ++ "\n" ++ "*/") ∧
    (lastSeg target ≠ "js" → lastSeg target ≠ "css" →
      wrapInComment (lastSeg target) s = "<!--" ++ "\n" ++ s ++ "\n" ++ "-->") := by
  refine ⟨?_, ?_, ?_⟩
  · unfold parseFile
    rw [if_pos (by rw [h1, h2]; rfl)]
    rfl
  · intro h
    rcases h with h | h <;> simp [wrapInComment, h]
  · intro hj hc
    simp [wrapInComment, hj, hc]

/-- C4 witness: a concrete literal identifier bundled toward a `.css`
destination resolves without I/O to the style-sheet comment wrap. -/
theorem literal_fallback_no_io_witness :
    envLit.isUrl "hi" = false ∧ envLit.isInvalidPath "hi" = true ∧
    parseFile envLit "hi" "o.css" = ⟨.ok (wrapInComment (lastSeg "o.css") "hi"), []⟩ ∧
    wrapInComment (lastSeg "o.css") "hi" = "/*!" ++ "\n" ++ "hi" ++ "\n" ++ "*/" :=
  ⟨rfl, rfl, (literal_fallback_no_io envLit "hi" "o.css" rfl rfl).1,
    (literal_fallback_no_io envLit "hi" "o.css" rfl rfl).2.1 (Or.inr (by decide))⟩

/-- C10: a Source Entry that the URL check accepts and whose fetch fails does
not reject the pass: it resolves to the URL string wrapped by the
destination-extension rule, with exactly the attempted fetch as I/O — the
same wrap an unreadable (but valid-looking) file path receives — and a pass
containing such an entry still fulfils and writes one segment per entry in
order. -/
theorem url_fetch_failure_fallback (env : Env) (opts : Options) (target u e : String)
    (h1 : env.isUrl u = true) (h2 : env.fetch u = .error e) :
    parseFile env u target = ⟨.ok (wrapInComment (lastSeg target) u), [Ev.fetch u]⟩ ∧
    (∀ p e2, env.isUrl p = false → env.isInvalidPath p = false →
      env.readF p = .error e2 →
      parseFile env p target = ⟨.ok (wrapInComment (lastSeg target) p), [Ev.readF p]⟩) ∧
    (∀ pre post : List SourceEntry,
      (loopFiles env opts (pre ++ SourceEntry.single u :: post) target).res = .ok () ∧
      writesOf (loopFiles env opts (pre ++ SourceEntry.single u :: post) target).trace
        = (pre ++ SourceEntry.single u :: post).map
            (fun s => entrySegment env opts target s ++ "\n")) := by
  refine ⟨?_, ?_, fun pre post => ⟨by rw [loopFiles_eq],
    by rw [loopFiles_eq]; exact writesOf_entries env opts target _⟩⟩
  · rw [parseFile_eq]
    unfold parseFileResult parseFileEvents
    simp [h1, h2]
  · intro p e2 hp1 hp2 hp3
    rw [parseFile_eq]
    unfold parseFileResult parseFileEvents
    simp [hp1, hp2, hp3]

/-- C10 witness: a concrete URL whose fetch fails resolves to its markup
comment wrap for an `.html` destination, and the one-entry pass fulfils. -/
theorem url_fetch_failure_fallback_witness :
    envFetchFail.isUrl "http://x/y.js" = true ∧
    envFetchFail.fetch "http://x/y.js" = .error "ECONNREFUSED" ∧
    parseFile envFetchFail "http://x/y.js" "o.html"
      = ⟨.ok (wrapInComment (lastSeg "o.html") "http://x/y.js"),
         [Ev.fetch "http://x/y.js"]⟩ ∧
    (loopFiles envFetchFail opts0 ([] ++ SourceEntry.single "http://x/y.js" :: [])
        "o.html").res = .ok () :=
  ⟨by decide, rfl,
   (url_fetch_failure_fallback envFetchFail opts0 "o.html" "http://x/y.js" "ECONNREFUSED"
      (by decide) rfl).1,
   ((url_fetch_failure_fallback envFetchFail opts0 "o.html" "http://x/y.js" "ECONNREFUSED"
      (by decide) rfl).2.2 [] []).1⟩

/-- C2 counterexample: when classifying the second referenced resource
throws, the inliner resolves the partially rewritten content — the first
reference, processed before the error, stays rewritten — not the unmodified
entry content the claim requires. -/
theorem inline_error_partial_cex :
    (encodeExternalResources envInlineErr "u: url('a.png'); v: url(b.bin)"
        (SourceEntry.single "s.css")).res
      = .ok "u: url('data:image/png;charset=utf-8;base64,AQ=='); v: url(b.bin)" ∧
    (encodeLoop envInlineErr (SourceEntry.single "s.css")
        (scanUrls ("u: url('a.png'); v: url(b.bin)").toList)
        "u: url('a.png'); v: url(b.bin)").aborted = true ∧
    ("u: url('data:image/png;charset=utf-8;base64,AQ=='); v: url(b.bin)" : String)
      ≠ "u: url('a.png'); v: url(b.bin)" := by
  refine ⟨by decide, by decide, by decide⟩

/-- C2 (amended): when processing reference k of an entry throws, the
inlining loop stops there and the entry resolves — never rejects — with the
content as mutated so far: references before k remain rewritten, reference k
and all later references are left untouched and perform no further I/O. -/
theorem inline_error_keeps_prior (env : Env) (src : SourceEntry) (code c1 e : String)
    (ms1 : List (String × String)) (m : String × String) (ms2 : List (String × String))
    (t1 : List Ev)
    (hscan : scanUrls code.toList = ms1 ++ m :: ms2)
    (hpre : encodeLoop env src ms1 code = ⟨c1, t1, false⟩)
    (herr : (inlineOne env src c1 m).1 = .error e) :
    (encodeExternalResources env code src).res = .ok c1 ∧
    encodeLoop env src (scanUrls code.toList) code
      = ⟨c1, t1 ++ (inlineOne env src c1 m).2, true⟩ := by
  have hab : (encodeLoop env src ms1 code).aborted = false := by rw [hpre]
  have happ := encodeLoop_append env src ms1 (m :: ms2) code hab
  rw [hpre] at happ
  have hstep : encodeLoop env src (m :: ms2) c1 = ⟨c1, (inlineOne env src c1 m).2, true⟩ := by
    cases hio : inlineOne env src c1 m with
    | mk r t =>
        cases r with
        | ok c2 => rw [hio] at herr; simp at herr
        | error e' => simp [encodeLoop, hio]
  have h2 : encodeLoop env src (scanUrls code.toList) code
      = ⟨c1, t1 ++ (inlineOne env src c1 m).2, true⟩ := by
    rw [hscan, happ, hstep]
  exact ⟨by unfold encodeExternalResources; rw [h2], h2⟩

/-- C2 witness: the amended behavior at the concrete two-reference entry
whose second reference fails to classify. -/
theorem inline_error_keeps_prior_witness :
    encodeLoop envInlineErr (SourceEntry.single "s.css")
        (scanUrls ("u: url('a.png'); v: url(b.bin)").toList)
        "u: url('a.png'); v: url(b.bin)"
      = ⟨"u: url('data:image/png;charset=utf-8;base64,AQ=='); v: url(b.bin)",
         [Ev.readF "a.png"] ++
           (inlineOne envInlineErr (SourceEntry.single "s.css")
             "u: url('data:image/png;charset=utf-8;base64,AQ=='); v: url(b.bin)"
             ("url(b.bin)", "b.bin")).2,
         true⟩ :=
  (inline_error_keeps_prior envInlineErr (SourceEntry.single "s.css")
    "u: url('a.png'); v: url(b.bin)"
    "u: url('data:image/png;charset=utf-8;base64,AQ=='); v: url(b.bin)"
    "TypeError: cannot read mime of undefined"
    [("url('a.png')", "a.png")] ("url(b.bin)", "b.bin") []
    [Ev.readF "a.png"]
    (by decide) (by decide) (by decide)).2

/-- C6: when every non-data reference of the content resolves and
classifies successfully, the inliner fulfils with every such reference
rewritten, in left-to-right match order, to exactly
`url('data:<mime>;charset=utf-8;base64,<data>')` (the first occurrence of
each match replaced, data-URI references left untouched), as given by the
spec-following rewrite `specInline`; no error path is taken. -/
theorem inline_success_rewrites (env : Env) (src : SourceEntry) (code : String)
    (h : ∀ mu ∈ scanUrls code.toList, strPrefix "data:" (jsTrim mu.2) = false →
      refResolvesB env src (jsTrim mu.2) = true) :
    (encodeExternalResources env code src).res
      = .ok (specInline env src (scanUrls code.toList) code) ∧
    (encodeLoop env src (scanUrls code.toList) code).aborted = false := by
  have hmain := encodeLoop_success env src (scanUrls code.toList) code h
  refine ⟨?_, hmain.2⟩
  show Except.ok (encodeLoop env src (scanUrls code.toList) code).code = _
  rw [hmain.1]

set_option maxRecDepth 8192 in
/-- C6 witness: a three-reference entry — a quoted png reference, a bare
data URI (matched through the body's backtracking), and an UNQUOTED gif
reference (likewise matched through backtracking) — is rewritten exactly
at the two non-data references. -/
theorem inline_success_rewrites_witness :
    (∀ mu ∈ scanUrls ("u: url('a.png'); w: url(data:image/gif;base64,R0); v: url(b.bin)").toList,
      strPrefix "data:" (jsTrim mu.2) = false →
      refResolvesB envInlineOk (SourceEntry.single "s.css") (jsTrim mu.2) = true) ∧
    (encodeExternalResources envInlineOk
        "u: url('a.png'); w: url(data:image/gif;base64,R0); v: url(b.bin)"
        (SourceEntry.single "s.css")).res
      = .ok ("u: url('data:image/png;charset=utf-8;base64,AQ=='); " ++
             "w: url(data:image/gif;base64,R0); " ++
             "v: url('data:image/gif;charset=utf-8;base64,Ag==')") := by
  refine ⟨by decide, ?_⟩
  have h := (inline_success_rewrites envInlineOk (SourceEntry.single "s.css")
    "u: url('a.png'); w: url(data:image/gif;base64,R0); v: url(b.bin)" (by decide)).1
  rw [h]
  decide

set_option maxRecDepth 8192 in
/-- C5 counterexample: (a) with minification inactive, the written content
of a style-sheet entry is its resource-inlined form — changed beyond
source-map stripping and trimming; (b) a group entry whose only member is
named `a.min.js` is still dispatched to the minifier, because a group's
eligibility flag is computed from the destination path, not from the member
identifiers. -/
theorem minify_policy_cex :
    (processSourceResult envPipe (SourceEntry.single "s.css") "o.css").code
      = "u: url('a.png')" ∧
    isProd envPipe opts0 = false ∧
    writesOf (entryPipeline envPipe opts0 "o.css" (SourceEntry.single "s.css")).trace
      = ["u: url('data:image/png;charset=utf-8;base64,AQ==')" ++ "\n"] ∧
    "u: url('data:image/png;charset=utf-8;base64,AQ==')" ++ "\n"
      ≠ cleanseCode "u: url('a.png')" ++ "\n" ∧
    Ev.minifyCall "js"
      ∈ (entryPipeline envPipe optsMin "o.js" (SourceEntry.group ["a.min.js"])).trace := by
  refine ⟨by decide, by decide, by decide, by decide, by decide⟩

/-- C5 (amended): the minifier dispatch is invoked for an entry exactly when
(the `minify` option or the production signal is set) and the entry's
eligibility flag is true; for a single-identifier entry the flag is false
exactly when the identifier fails the path-validity check or its penultimate
dot-segment is `min`, while for a group entry it is false exactly when the
DESTINATION path's penultimate dot-segment is `min` (member naming is
ignored); the written segment is the minifier-dispatch output of the
cleansed, inlined content when minification runs, and that content unchanged
when it does not. -/
theorem minify_policy (env : Env) (opts : Options) (target : String)
    (source : SourceEntry) :
    (Ev.minifyCall (entryUnit env target source).ext
        ∈ (entryPipeline env opts target source).trace ↔
      (isProd env opts && (entryUnit env target source).minify) = true) ∧
    writesOf (entryPipeline env opts target source).trace
      = [(if isProd env opts && (entryUnit env target source).minify
          then attemptMinify env (entryUnit env target source).ext
            (entryUnit env target source).code
          else (entryUnit env target source).code) ++ "\n"] ∧
    (∀ s, source = SourceEntry.single s →
      ((entryUnit env target source).minify = false ↔
        env.isInvalidPath s = true ∨ penult (splitDot s) = some "min")) ∧
    (∀ g, source = SourceEntry.group g →
      ((entryUnit env target source).minify = false ↔
        penult (splitDot target) = some "min")) := by
  have hA := (minifyCall_not_mem_entryParts env target source
    (entryUnit env target source).ext).1
  have hB := (minifyCall_not_mem_entryParts env target source
    (entryUnit env target source).ext).2
  refine ⟨?_, ?_, ?_, ?_⟩
  · rw [entryPipeline_eq]
    show Ev.minifyCall (entryUnit env target source).ext ∈
        entryPre env opts target source ++
          [Ev.write (entrySegment env opts target source ++ "\n")] ↔ _
    unfold entryPre
    constructor
    · intro hmem
      simp only [List.mem_append, List.mem_singleton] at hmem
      rcases hmem with ((h | h) | h) | h
      · exact absurd h hA
      · by_cases hj : (cleanseResults (processSourceResult env source target)).ext = "js"
        · rw [if_pos hj] at h; simp at h
        · rw [if_neg hj] at h; exact absurd h (hB _)
      · by_cases hcond : (isProd env opts && (entryUnit env target source).minify) = true
        · exact hcond
        · rw [if_neg hcond] at h; simp at h
      · simp at h
    · intro hcond
      simp [List.mem_append, hcond]
  · rw [writesOf_entryPipeline]
    unfold entrySegment
    rfl
  · intro s hs
    subst hs
    rw [entryUnit_minify]
    show (!env.isInvalidPath s && notMinNamed s) = false ↔ _
    unfold notMinNamed
    cases hinv : env.isInvalidPath s <;> simp [hinv, bne_eq_false_iff_eq]
  · intro g hg
    subst hg
    rw [entryUnit_minify]
    show notMinNamed target = false ↔ _
    unfold notMinNamed
    simp [bne_eq_false_iff_eq]

/-- C5 witness: the amended policy applied to the concrete group entry (and
the single-entry flag rule at an identifier named `s.min.css`). -/
theorem minify_policy_witness :
    (Ev.minifyCall (entryUnit envPipe "o.js" (SourceEntry.group ["a.min.js"])).ext
        ∈ (entryPipeline envPipe optsMin "o.js" (SourceEntry.group ["a.min.js"])).trace ↔
      (isProd envPipe optsMin &&
        (entryUnit envPipe "o.js" (SourceEntry.group ["a.min.js"])).minify) = true) ∧
    ((entryUnit envPipe "o.css" (SourceEntry.single "s.min.css")).minify = false ↔
      envPipe.isInvalidPath "s.min.css" = true ∨
        penult (splitDot "s.min.css") = some "min") :=
  ⟨(minify_policy envPipe optsMin "o.js" (SourceEntry.group ["a.min.js"])).1,
   (minify_policy envPipe opts0 "o.css" (SourceEntry.single "s.min.css")).2.2.1
     "s.min.css" rfl⟩

/-- C7 counterexample: a group of one member whose resolved text is `A`
produces the concatenation with a LEADING newline (`Promise.reduce` starts
from the empty string and prepends a separator before every member), not the
separator-free concatenation the claim states. -/
theorem group_concat_cex :
    (processSource envFile (SourceEntry.group ["a.css"]) "o.css").res
      = .ok ⟨"\n" ++ "A", true, "css"⟩ ∧
    ("\n" ++ "A" : String) ≠ "A" := by
  refine ⟨by decide, by decide⟩

/-- C7 (amended): a group Source Entry of N members resolves each member in
order and concatenates the resolved texts with newline separators, with one
LEADING separator as well (N separators in total, the fold starting from the
empty string), the unit tagged with the destination-derived eligibility flag
and extension; its I/O is the members' resolution I/O in order. -/
theorem group_concat (env : Env) (target : String) (files : List String)
    (hne : files ≠ []) :
    (processSource env (SourceEntry.group files) target).res
      = .ok ⟨"\n" ++ joinWithNL (files.map (fun f => parseFileResult env f target)),
             notMinNamed target, lastSeg target⟩ ∧
    (processSource env (SourceEntry.group files) target).trace
      = (files.map (fun f => parseFileEvents env f target)).flatten := by
  rw [processSource_eq]
  constructor
  · show Except.ok
        (⟨files.foldl (fun code f => code ++ "\n" ++ parseFileResult env f target) "",
          notMinNamed target, lastSeg target⟩ : Results) = _
    rw [foldl_group (fun f => parseFileResult env f target) files "" hne]
    rfl
  · rfl

/-- C7 witness: two members, each resolving to `A`, concatenate to a leading
newline plus the newline-joined texts. -/
theorem group_concat_witness :
    (["a.css", "b.css"] : List String) ≠ [] ∧
    (processSource envFile (SourceEntry.group ["a.css", "b.css"]) "o.css").res
      = .ok ⟨"\n" ++ joinWithNL ["A", "A"], true, "css"⟩ ∧
    "\n" ++ joinWithNL ["A", "A"] = "\nA\nA" := by
  refine ⟨by decide, ?_, by decide⟩
  have h := (group_concat envFile "o.css" ["a.css", "b.css"] (by decide)).1
  rw [h]
  decide

set_option maxRecDepth 8192 in
/-- C8 counterexample: with a successful minification whose output still
carries a source-map comment and trailing whitespace, that output is written
verbatim — stripping and trimming are NOT applied after the minification
step, contrary to the claim. -/
theorem cleanse_before_minify_cex :
    writesOf (entryPipeline envMinBad optsMin "o.js" (SourceEntry.single "a.js")).trace
      = ["M\n//# sourceMappingURL=x.map  " ++ "\n"] ∧
    cleanseCode "M\n//# sourceMappingURL=x.map  " = "M" ∧
    ("M\n//# sourceMappingURL=x.map  " ++ "\n" : String)
      ≠ cleanseCode "M\n//# sourceMappingURL=x.map  " ++ "\n" := by
  refine ⟨by decide, by decide, by decide⟩

/-- C8 (amended): the source-map-comment stripping and trimming are applied
once per entry, to the resolved content BEFORE inlining and before the
minification step; the minifier dispatch receives the cleansed (and, for
non-`js` extensions, inlined) content, and its output is written as-is, with
no further stripping or trimming. -/
theorem cleanse_before_minify (env : Env) (opts : Options) (target : String)
    (source : SourceEntry) :
    writesOf (entryPipeline env opts target source).trace
      = [(if isProd env opts && (processSourceResult env source target).minify
          then attemptMinify env (processSourceResult env source target).ext
            (if (processSourceResult env source target).ext = "js"
             then cleanseCode (processSourceResult env source target).code
             else encodeResult env (cleanseCode (processSourceResult env source target).code)
               source)
          else (if (processSourceResult env source target).ext = "js"
             then cleanseCode (processSourceResult env source target).code
             else encodeResult env (cleanseCode (processSourceResult env source target).code)
               source)) ++ "\n"] := by
  rw [writesOf_entryPipeline]
  unfold entrySegment entryUnit cleanseResults
  by_cases hj : (processSourceResult env source target).ext = "js" <;>
    cases hp : isProd env opts <;>
    cases hm : (processSourceResult env source target).minify <;>
    simp [hj, hp, hm]

/-- C9 counterexample: bundling the same literal source into a `.css` and an
`.html` destination yields different bytes — the output depends on the
destination's extension through the comment-wrap rule. -/
theorem same_sources_diff_ext_cex :
    bundleOutput envLit opts0 [SourceEntry.single "t"] "o.css" = "/*!\nt\n*/\n" ∧
    bundleOutput envLit opts0 [SourceEntry.single "t"] "o.html" = "<!--\nt\n-->\n" ∧
    bundleOutput envLit opts0 [SourceEntry.single "t"] "o.css"
      ≠ bundleOutput envLit opts0 [SourceEntry.single "t"] "o.html" := by
  refine ⟨by decide, by decide, by decide⟩

/-- C9 (amended): with watch off and minification inactive, bundling the
same source list into two destinations gives byte-identical outputs whenever
the destination paths have the same final dot-segment — the output depends
on the destination only through its extension (comment-wrap and group
rules). -/
theorem same_ext_deterministic (env : Env) (opts : Options)
    (sources : List SourceEntry) (d1 d2 : String)
    (_hw : opts.watch = false) (hm : opts.minify = false) (hp : env.prod = false)
    (hext : lastSeg d1 = lastSeg d2) :
    bundleOutput env opts sources d1 = bundleOutput env opts sources d2 := by
  have hprod : isProd env opts = false := by simp [isProd, hm, hp]
  unfold bundleOutput bundle
  simp only [loopFiles_eq]
  show String.join (writesOf ((sources.map (fun s => entryPre env opts d1 s ++
      [Ev.write (entrySegment env opts d1 s ++ "\n")])).flatten)) = _
  rw [writesOf_entries, writesOf_entries]
  have hfun : (fun s => entrySegment env opts d1 s ++ "\n")
      = fun s => entrySegment env opts d2 s ++ "\n" := by
    funext s
    rw [entrySegment_target env opts d1 d2 s hprod hext]
  rw [hfun]

/-- C9 witness: identical outputs for two distinct `.css` destinations. -/
theorem same_ext_deterministic_witness :
    bundleOutput envLit opts0 [SourceEntry.single "t"] "a.css"
      = bundleOutput envLit opts0 [SourceEntry.single "t"] "b.css" :=
  same_ext_deterministic envLit opts0 [SourceEntry.single "t"] "a.css" "b.css"
    rfl rfl rfl (by decide)

end FEP
